import Mathlib

set_option maxHeartbeats 1000000

/-!
Shallow embedding of the skyhy timeline engine (src/app.js).

Times are rationals (seconds on the timeline); payload references (the
`data` field of intervals, pointing at a Flight or Video object) are
numeric ids, with `none` modelling JavaScript `null`/`undefined`.
The interval collections used by the app are `Cesium.TimeIntervalCollection`
values; the collection operations below model that library's documented
behaviour (a start-sorted list of non-overlapping intervals, a negative
"insertion point" encoding from `indexOf`, and insertion that gives the
new interval precedence over existing overlapping ones).
-/

/-- Seconds to jump when seeking (src/app.js `JUMP_SECONDS`). -/
def JUMP_SECONDS : ℚ := 10

/-- Window of the trajectory smoother (src/app.js `TRACKER_WINDOW`). -/
def TRACKER_WINDOW : Nat := 128

/-- Cesium.JulianDate.equalsEpsilon: absolute difference of the two dates in
seconds is within `e`.  The epsilon argument defaults to 0 when a call site
omits it. -/
def eqEps (a b e : ℚ) : Prop := |a - b| ≤ e

instance (a b e : ℚ) : Decidable (eqEps a b e) := by
  unfold eqEps; infer_instance

/-- A Cesium.TimeInterval: start/stop with inclusivity flags and a payload
reference (`data`; `none` models null). -/
structure TInterval where
  start : ℚ
  stop : ℚ
  startIncluded : Bool
  stopIncluded : Bool
  data : Option Nat
deriving DecidableEq

/-- Cesium.TimeInterval.isEmpty: the interval covers no point. -/
def tIsEmpty (I : TInterval) : Bool :=
  decide (I.stop < I.start) ||
    (decide (I.start = I.stop) && !(I.startIncluded && I.stopIncluded))

/-- Cesium.TimeInterval.contains. -/
def tContains (I : TInterval) (t : ℚ) : Bool :=
  (decide (I.start < t) || (decide (t = I.start) && I.startIncluded)) &&
    (decide (t < I.stop) || (decide (t = I.stop) && I.stopIncluded))

/-- Point `t` lies strictly after interval `I` on the timeline. -/
def tAfter (I : TInterval) (t : ℚ) : Bool :=
  decide (I.stop < t) || (decide (t = I.stop) && !I.stopIncluded)

/-- Cesium.TimeIntervalCollection.indexOf, on a start-sorted list of
non-overlapping intervals: the index of the interval containing `t`, or the
bitwise complement of the insertion point (the index of the first interval
lying entirely after `t`) when no interval contains `t`. -/
def indexOfAux (t : ℚ) : List TInterval → Nat → Int
  | [], k => -((k : Int) + 1)
  | I :: rest, k =>
    if tContains I t then (k : Int)
    else if tAfter I t then indexOfAux t rest (k + 1)
    else -((k : Int) + 1)

def indexOf (c : List TInterval) (t : ℚ) : Int := indexOfAux t c 0

/-- JavaScript bitwise complement of an index. -/
def jsNot (i : Int) : Int := -(i + 1)

/-- Array-style indexing: undefined for negative or out-of-range indices. -/
def getI (c : List TInterval) (i : Int) : Option TInterval :=
  if 0 ≤ i then c.get? i.toNat else none

/-- Cesium.TimeIntervalCollection.findIntervalContainingDate. -/
def findIntervalContainingDate (c : List TInterval) (t : ℚ) : Option TInterval :=
  let i := indexOf c t
  if 0 ≤ i then getI c i else none

/-- Interval `I` lies entirely before interval `J`. -/
def tBefore (I J : TInterval) : Bool :=
  decide (I.stop < J.start) ||
    (decide (I.stop = J.start) && (!I.stopIncluded || !J.startIncluded))

/-- The spans of `I` and `J` intersect. -/
def tOverlaps (I J : TInterval) : Bool := !(tBefore I J) && !(tBefore J I)

/-- Portion of `I` before `J`: the remainder kept on the left when `J`'s span
is carved out of `I`. -/
def leftPiece (J I : TInterval) : List TInterval :=
  let L : TInterval := ⟨I.start, J.start, I.startIncluded, !J.startIncluded, I.data⟩
  if tIsEmpty L then [] else [L]

/-- Portion of `I` after `J`. -/
def rightPiece (J I : TInterval) : List TInterval :=
  let R : TInterval := ⟨J.stop, I.stop, !J.stopIncluded, I.stopIncluded, I.data⟩
  if tIsEmpty R then [] else [R]

/-- Cesium.TimeIntervalCollection.removeInterval: removes the span of `J` from
the collection, truncating or splitting the intervals that overlap it.  A
no-op for an empty `J`. -/
def removeSpan (J : TInterval) (c : List TInterval) : List TInterval :=
  if tIsEmpty J then c
  else c.flatMap fun I => if tOverlaps I J then leftPiece J I ++ rightPiece J I else [I]

/-- Insert `J` into the start-sorted list (deterministic tie-break on equal
start dates by inclusivity, matching the library's binary-search placement). -/
def insertSorted (J : TInterval) : List TInterval → List TInterval
  | [] => [J]
  | I :: rest =>
    if decide (J.start < I.start) ||
        (decide (J.start = I.start) && (J.startIncluded && !I.startIncluded)) then
      J :: I :: rest
    else I :: insertSorted J rest

/-- Adjacent intervals carrying the same data whose union is again an
interval (they touch and at least one of the touching edges is included). -/
def touchesSameData (I K : TInterval) : Bool :=
  decide (I.data = K.data) && decide (I.stop = K.start) &&
    (I.stopIncluded || K.startIncluded)

def mergeTI (I K : TInterval) : TInterval :=
  ⟨I.start, K.stop, I.startIncluded, K.stopIncluded, I.data⟩

/-- Merge adjacent same-data intervals into one
(Cesium.TimeIntervalCollection.addInterval merges intervals that contain the
same data). -/
def coalesceCons (I : TInterval) : List TInterval → List TInterval
  | [] => [I]
  | K :: rest' => if touchesSameData I K then mergeTI I K :: rest' else I :: K :: rest'

def coalesce : List TInterval → List TInterval
  | [] => []
  | I :: rest => coalesceCons I (coalesce rest)

/-- Cesium.TimeIntervalCollection.addInterval as documented: adds an interval,
merging intervals that contain the same data and splitting intervals of
different data as needed to keep the collection non-overlapping and
start-sorted; the new interval takes precedence over existing overlapping
intervals.  A no-op for an empty interval. -/
def addInterval (J : TInterval) (c : List TInterval) : List TInterval :=
  if tIsEmpty J then c else coalesce (insertSorted J (removeSpan J c))

structure PilotAddOut where
  intervals : List TInterval
  log : List String
deriving DecidableEq

/-- Pilot.add restricted to the per-type collection (src/app.js 625-641):
`removeInterval(obj.interval)` then `addInterval(obj.interval)`, with no
overlap check and no warning call anywhere in the method (`log` collects the
warnings the method emits, of which there are none). -/
def pilotAddIndex (c : List TInterval) (I : TInterval) : PilotAddOut :=
  ⟨addInterval I (removeSpan I c), []⟩

structure AppIndexes where
  flights : List TInterval
  global : List TInterval
deriving DecidableEq

/-- Pilot.add including its effect on the global timeline index
(src/app.js 625-641): the pilot collection gets the interval, the global
collection `state.intervals` gets a clone (an independent interval value
carrying the same payload reference). -/
def pilotAddApp (s : AppIndexes) (I : TInterval) : AppIndexes :=
  ⟨addInterval I (removeSpan I s.flights), addInterval I s.global⟩

/-- Pilot.remove (src/app.js 643-653): removes the interval from the pilot's
own collection only; the global collection is not touched. -/
def pilotRemoveApp (s : AppIndexes) (I : TInterval) : AppIndexes :=
  ⟨removeSpan I s.flights, s.global⟩

/-- Index effects of Flight.destroy (src/app.js 313-338), as invoked by the
keypress delete handler (src/app.js 1031-1043): Pilot.remove on the pilot's
collection and nulling the pilot-side interval's data; the global
`state.intervals` collection is not updated by any removal path. -/
def flightDestroy (s : AppIndexes) (I : TInterval) : AppIndexes :=
  pilotRemoveApp s I

/-- The Cesium clock singleton fields used by the engine. -/
structure Clock where
  currentTime : ℚ
  startTime : ℚ
  stopTime : ℚ
  multiplier : ℚ
  shouldAnimate : Bool
deriving DecidableEq

structure SeekOut where
  clock : Clock
  expanded : Bool
deriving DecidableEq

/-- Boundary epsilon matching while inside an interval (src/app.js 879-889).
The start comparison passes epsilon 1; the stop comparison omits the epsilon
argument, which therefore defaults to 0. -/
def seekEpsA (c : List TInterval) (current : ℚ) (left : Bool) (i : Int) : Int :=
  if 0 ≤ i then
    match getI c i with
    | some interval =>
      if left = true ∧ eqEps current interval.start 1 then jsNot i
      else if left = false ∧ eqEps current interval.stop 0 then jsNot (i + 1)
      else i
    | none => i
  else i

/-- Still-inside matching when the position is not found (src/app.js
890-904): abutting the adjacent interval within epsilon 1 counts as inside
it. -/
def seekEpsB (c : List TInterval) (current : ℚ) (left : Bool) (i : Int) : Int :=
  if i < 0 then
    if left = true then
      match getI c (jsNot i - 1) with
      | some interval => if eqEps current interval.stop 1 then jsNot i - 1 else i
      | none => i
    else
      match getI c (jsNot i) with
      | some interval => if eqEps current interval.start 1 then jsNot i else i
      | none => i
  else i

/-- Decision block while inside an interval (src/app.js 906-947).  Returns
`none` when no jump was decided: the plain step left the interval, or the
dead guard `ctrl && index == state.intervals.length < 1` (which compares the
index against the boolean `length < 1` coerced to a number) failed. -/
def seekJumpA (c : List TInterval) (clock : Clock) (left ctrl : Bool)
    (seconds : ℚ) (i : Int) : Option ℚ :=
  if 0 ≤ i then
    match getI c i with
    | some interval =>
      if i = 0 ∧ ctrl = true ∧ left = true ∧ eqEps clock.currentTime interval.start 1 then
        some clock.startTime
      else if i = (c.length : Int) ∧ ctrl = true ∧ left = false ∧
          eqEps clock.currentTime interval.stop 0 then
        if ctrl = true ∧ i = (if c.length < 1 then (1 : Int) else 0) then
          some clock.stopTime
        else none
      else if ctrl = true ∧ left = true then some interval.start
      else if ctrl = true ∧ left = false then some interval.stop
      else if ctrl = false then
        let j := clock.currentTime + seconds
        if indexOf c j ≠ i then none else some j
      else none
    | none => none
  else none

/-- Decision block when not inside an interval (src/app.js 950-979). -/
def seekJumpB (c : List TInterval) (clock : Clock) (left ctrl : Bool)
    (seconds : ℚ) (i : Int) : ℚ :=
  if ctrl = true ∧ left = true then
    match getI c (jsNot i - 1) with
    | some interval => interval.stop
    | none => clock.startTime
  else if ctrl = true ∧ left = false then
    match getI c (jsNot i) with
    | some interval => interval.start
    | none => clock.stopTime
  else clock.currentTime + seconds

/-- Defensive re-check (src/app.js 981-988): if still undecided and inside an
interval, jump to its near edge. -/
def seekJumpC (c : List TInterval) (left : Bool) (i : Int) (j : Option ℚ) : Option ℚ :=
  match j with
  | some v => some v
  | none =>
    if 0 ≤ i then
      match getI c i with
      | some interval => some (if left = true then interval.start else interval.stop)
      | none => none
    else none

/-- The jump target computed by the keyboard seek handler.  An undecided jump
is the zero date (`jump.dayNumber == 0`), modelled by `Option`; the final
`getD 0` mirrors committing the zero date, which is unreachable because the
not-inside block always decides. -/
def seekJump (c : List TInterval) (clock : Clock) (left ctrl : Bool) : ℚ :=
  let seconds := JUMP_SECONDS * (if left = true then (-1 : ℚ) else 1) * |clock.multiplier|
  let i2 := seekEpsB c clock.currentTime left
    (seekEpsA c clock.currentTime left (indexOf c clock.currentTime))
  let j2 :=
    match seekJumpA c clock left ctrl seconds i2 with
    | none => some (seekJumpB c clock left ctrl seconds i2)
    | some v => some v
  (seekJumpC c left i2 j2).getD 0

/-- The keyboard seek handler (src/app.js 860-1018): computes the jump
target, widens the corresponding clock bound when the target lies strictly
outside it (`expanded`), and commits the target as the current time.  A
no-op when the global collection is empty. -/
def seek (c : List TInterval) (clock : Clock) (left ctrl : Bool) : SeekOut :=
  if c.length = 0 then ⟨clock, false⟩
  else
    let jump := seekJump c clock left ctrl
    if left = true then
      if jump < clock.startTime then
        ⟨{ clock with currentTime := jump, startTime := jump }, true⟩
      else ⟨{ clock with currentTime := jump }, false⟩
    else
      if clock.stopTime < jump then
        ⟨{ clock with currentTime := jump, stopTime := jump }, true⟩
      else ⟨{ clock with currentTime := jump }, false⟩

/-- A 3-component Cartesian position (Cesium.Cartesian3). -/
structure Cart3 where
  x : ℚ
  y : ℚ
  z : ℚ
deriving DecidableEq

def c3add (a b : Cart3) : Cart3 := ⟨a.x + b.x, a.y + b.y, a.z + b.z⟩

def c3sub (a b : Cart3) : Cart3 := ⟨a.x - b.x, a.y - b.y, a.z - b.z⟩

def c3div (a : Cart3) (n : ℚ) : Cart3 := ⟨a.x / n, a.y / n, a.z / n⟩

/-- Scaling of a position by a natural number, used to state the running-sum
invariant of the smoother. -/
def c3scale (n : Nat) (p : Cart3) : Cart3 := ⟨(n : ℚ) * p.x, (n : ℚ) * p.y, (n : ℚ) * p.z⟩

structure TSample where
  time : ℚ
  position : Cart3
deriving DecidableEq

/-- State of the trajectory smoother inside Flight.create: the bounded queue
`trackerStack`, the running vector sum `trackerCartesian`, and the smoothed
samples emitted so far into `trackerPositions`. -/
structure TrackerState where
  stack : List TSample
  cartesian : Cart3
  output : List TSample
deriving DecidableEq

/-- First statement of updateTracker (src/app.js 193-197): when draining or
the queue is full, shift the oldest sample and subtract its position from the
running sum. -/
def shiftStep (drain : Bool) (s : TrackerState) : TrackerState :=
  if drain || decide (TRACKER_WINDOW ≤ s.stack.length) then
    match s.stack with
    | bottom :: rest => { s with stack := rest, cartesian := c3sub s.cartesian bottom.position }
    | [] => s
  else s

/-- Second statement of updateTracker (src/app.js 199-205): when draining a
non-empty queue or holding more than half a window, emit one smoothed sample
whose position is the running average and whose time is taken
`Math.max(0, length - W/2)` entries from the bottom of the queue (the
natural-number subtraction models the `Math.max(0, ...)`). -/
def emitStep (drain : Bool) (s : TrackerState) : TrackerState :=
  if (drain && decide (s.stack.length ≠ 0)) || decide (TRACKER_WINDOW / 2 < s.stack.length) then
    let average := c3div s.cartesian (s.stack.length : ℚ)
    let index := s.stack.length - TRACKER_WINDOW / 2
    match s.stack.get? index with
    | some e => { s with output := s.output ++ [⟨e.time, average⟩] }
    | none => s
  else s

/-- updateTracker (src/app.js 191-206). -/
def updateTracker (drain : Bool) (s : TrackerState) : TrackerState :=
  emitStep drain (shiftStep drain s)

/-- One iteration of the sample loop in Flight.create (src/app.js 231-239):
push the raw sample, add its position to the running sum, and run
updateTracker without draining. -/
def pushSample (s : TrackerState) (smp : TSample) : TrackerState :=
  updateTracker false { s with stack := s.stack ++ [smp], cartesian := c3add s.cartesian smp.position }

/-- The end-of-input flush loop (src/app.js 242-244): `while length > 0 do
updateTracker(true)`.  Each draining call shifts exactly one element off a
non-empty queue, so the loop runs exactly `stack.length` times; the fuel
argument makes that count explicit. -/
def drainSteps : Nat → TrackerState → TrackerState
  | 0, s => s
  | fuel + 1, s => if s.stack.length = 0 then s else drainSteps fuel (updateTracker true s)

def drainTracker (s : TrackerState) : TrackerState := drainSteps s.stack.length s

/-- The whole smoother run of Flight.create: feed every fix, then flush. -/
def runTracker (samples : List TSample) : TrackerState :=
  drainTracker (samples.foldl pushSample ⟨[], ⟨0, 0, 0⟩, []⟩)

/-- Invariant of the smoother on a constant-position input `p`: everything in
the queue sits at `p`, the running sum is the queue length times `p`, and
every emitted sample sits at `p`. -/
def ConstInv (p : Cart3) (s : TrackerState) : Prop :=
  (∀ e ∈ s.stack, e.position = p) ∧
  s.cartesian = c3scale s.stack.length p ∧
  (∀ e ∈ s.output, e.position = p)

/-- Inputs of the onTick resolver (src/app.js 1095-1124): the active pilot's
two collections, the any-pilot's videos, and whether the active pilot is the
any pilot. -/
structure ResolverCfg where
  pilotFlights : List TInterval
  pilotVideos : List TInterval
  anyVideos : List TInterval
  pilotIsAny : Bool

/-- The candidate flight payload at time `t`: the data of the containing
interval of the active pilot's flights, or none. -/
def resolveFlight (cfg : ResolverCfg) (t : ℚ) : Option Nat :=
  match findIntervalContainingDate cfg.pilotFlights t with
  | some I => I.data
  | none => none

/-- The candidate video payload at time `t`, with the any-pilot fallback when
the active pilot's lookup yields nothing and the active pilot is not the any
pilot. -/
def resolveVideo (cfg : ResolverCfg) (t : ℚ) : Option Nat :=
  let video : Option Nat :=
    match findIntervalContainingDate cfg.pilotVideos t with
    | some I => I.data
    | none => none
  if video = none ∧ cfg.pilotIsAny = false then
    match findIntervalContainingDate cfg.anyVideos t with
    | some I => I.data
    | none => none
  else video

/-- A change notification raised by the resolver (the calls to changeFlight
and changeVideo, which log the old and new payload). -/
inductive Notice where
  | flightChanged (pre post : Option Nat)
  | videoChanged (pre post : Option Nat)
deriving DecidableEq

def isFlightNotice : Notice → Bool
  | .flightChanged _ _ => true
  | _ => false

def isVideoNotice : Notice → Bool
  | .videoChanged _ _ => true
  | _ => false

/-- State tracked by initialize(): the currently active flight and video
payloads. -/
structure ResolverState where
  currentFlight : Option Nat
  currentVideo : Option Nat
deriving DecidableEq

/-- The onTick handler (src/app.js 1095-1124): resolve both candidates and
call changeFlight / changeVideo only when the payload differs from the
current one. -/
def onTick (cfg : ResolverCfg) (s : ResolverState) (t : ℚ) : ResolverState × List Notice :=
  let flight := resolveFlight cfg t
  let video := resolveVideo cfg t
  let step1 : ResolverState × List Notice :=
    if flight ≠ s.currentFlight then
      ({ s with currentFlight := flight }, [Notice.flightChanged s.currentFlight flight])
    else (s, [])
  let step2 : ResolverState × List Notice :=
    if video ≠ step1.1.currentVideo then
      ({ step1.1 with currentVideo := video }, [Notice.videoChanged step1.1.currentVideo video])
    else (step1.1, [])
  (step2.1, step1.2 ++ step2.2)

/-- A sequence of clock ticks processed by the resolver. -/
def runTicks (cfg : ResolverCfg) (s : ResolverState) : List ℚ → ResolverState × List Notice
  | [] => (s, [])
  | t :: ts =>
    let step := onTick cfg s t
    let rest := runTicks cfg step.1 ts
    (rest.1, step.2 ++ rest.2)

/-- Number of transitions of the value of `f` along the tick sequence,
starting from the previous value `prev`. -/
def transitionCount (f : ℚ → Option Nat) : Option Nat → List ℚ → Nat
  | _, [] => 0
  | prev, t :: ts => (if f t ≠ prev then 1 else 0) + transitionCount f (f t) ts

/-- The media element fields driven by the synchronizer. -/
structure MediaElement where
  currentTime : ℚ
  playbackRate : ℚ
  paused : Bool
deriving DecidableEq

/-- Cesium.Math.equalsEpsilon with a relative and an absolute epsilon. -/
def cesiumEqualsEpsilon (a b relEps absEps : ℚ) : Prop :=
  |a - b| ≤ absEps ∨ |a - b| ≤ relEps * max |a| |b|

instance (a b relEps absEps : ℚ) : Decidable (cesiumEqualsEpsilon a b relEps absEps) := by
  unfold cesiumEqualsEpsilon; infer_instance

/-- Cesium.Math.EPSILON1. -/
def EPSILON1 : ℚ := 1 / 10

/-- syncVideo inside Video.start (src/app.js 550-565): force-seek the element
when it drifted outside tolerance, set the element's playback rate to the
fixed slow value 0.1 when the driving clock runs backwards and to 1
otherwise, and play/pause it to match the clock's shouldAnimate flag. -/
def syncVideo (clock : Clock) (intervalStart rate : ℚ) (el : MediaElement) : MediaElement :=
  let a := (clock.currentTime - intervalStart) / rate
  let el := if ¬cesiumEqualsEpsilon a el.currentTime EPSILON1 1 then
      { el with currentTime := a }
    else el
  let direction : ℚ := if clock.multiplier < 0 then 1 / 10 else 1
  let el := if direction ≠ el.playbackRate then { el with playbackRate := direction } else el
  if clock.shouldAnimate = true ∧ el.paused = true then { el with paused := false }
  else if clock.shouldAnimate = false ∧ el.paused = false then { el with paused := true }
  else el

/-- State of the pilot linked list: creation order of `state.pilots` keys,
and the `next`/`prev` references of each pilot (`none` models a field that
was never assigned). -/
structure PilotRing where
  pilots : List Nat
  next : Nat → Option Nat
  prev : Nat → Option Nat

/-- The linked-list part of the Pilot constructor (src/app.js 600-623):
`first` is the first-inserted existing pilot; the new pilot is linked in
before it with `this.next = first || this`, `this.prev = this.next.prev ||
this`, `this.prev.next = this`, `this.next.prev = this`. -/
def addPilot (s : PilotRing) (c : Nat) : PilotRing :=
  let first : Option Nat := s.pilots.head?
  let n : Nat := first.getD c
  let p : Nat := (s.prev n).getD c
  { pilots := s.pilots ++ [c]
    next := fun q => if q = p then some c else if q = c then some n else s.next q
    prev := fun q => if q = n then some c else if q = c then some p else s.prev q }

/-- Creating pilots one after the other from an empty `state.pilots`. -/
def buildRing (names : List Nat) : PilotRing :=
  names.foldl addPilot ⟨[], fun _ => none, fun _ => none⟩

/-- Invariant of the pilot linked list: the creation list has no duplicates,
next/prev are assigned exactly on the pilots created so far, and following
next then prev (or prev then next) from any pilot returns to it. -/
structure RingInv (s : PilotRing) : Prop where
  nodup : s.pilots.Nodup
  nextMem : ∀ q, (s.next q).isSome ↔ q ∈ s.pilots
  prevMem : ∀ q, (s.prev q).isSome ↔ q ∈ s.pilots
  nextPrev : ∀ q ∈ s.pilots, ∀ r, s.next q = some r → r ∈ s.pilots ∧ s.prev r = some q
  prevNext : ∀ q ∈ s.pilots, ∀ r, s.prev q = some r → r ∈ s.pilots ∧ s.next r = some q

/-- A JavaScript metadata field value, as far as the rate validation looks at
it.  Rationals stand in for JavaScript numbers. -/
inductive JSVal where
  | num (q : ℚ)
  | str (s : String)
  | boolean (b : Bool)
  | null
  | undef
deriving DecidableEq

/-- JavaScript truthiness of a metadata field value. -/
def truthy : JSVal → Bool
  | .num q => decide (q ≠ 0)
  | .str s => decide (s ≠ "")
  | .boolean b => b
  | .null => false
  | .undef => false

def isNumberVal : JSVal → Bool
  | .num _ => true
  | _ => false

def numVal : JSVal → ℚ
  | .num q => q
  | _ => 0

structure VideoCreateOut where
  rate : ℚ
  log : List String
  interval : TInterval
  videos : List TInterval
deriving DecidableEq

/-- The rate validation and indexing path of Video.create (src/app.js
364-374, 385-390, 420-445): the constructor initializes `this.rate = 1`;
`if (videoData.rate)` guards the validation, warning and keeping the default
on a truthy non-number or non-positive number; completeVideo then builds the
half-open interval `[start, start + duration * rate)` and calls
`pilot.add(that)`.  `duration` is the already-parsed duration in seconds and
`vid` the payload reference of the video being created. -/
def videoCreate (rateField : JSVal) (start duration : ℚ) (vid : Nat)
    (pilotVideos : List TInterval) : VideoCreateOut :=
  let rateAndLog : ℚ × List String :=
    if truthy rateField = true then
      if isNumberVal rateField = false ∨ numVal rateField ≤ 0 then
        (1, ["Invalid rate for video:"])
      else (numVal rateField, [])
    else (1, [])
  let interval : TInterval := ⟨start, start + duration * rateAndLog.1, true, false, some vid⟩
  ⟨rateAndLog.1, rateAndLog.2, interval, (pilotAddIndex pilotVideos interval).intervals⟩

/-- C1 counterexample: inserting the flight interval `[3,5)` into a pilot
index already holding `[0,10)` — the two spans intersect — is not rejected:
Pilot.add emits no warning, and the index grows from one interval to three
(the overlapped interval is split around the new one). -/
theorem c1_overlap_insert_counterexample :
    tOverlaps ⟨0, 10, true, false, some 1⟩ ⟨3, 5, true, false, some 2⟩ = true ∧
    (pilotAddIndex [] ⟨0, 10, true, false, some 1⟩).intervals.length = 1 ∧
    (pilotAddIndex (pilotAddIndex [] ⟨0, 10, true, false, some 1⟩).intervals
      ⟨3, 5, true, false, some 2⟩).intervals.length = 3 ∧
    (pilotAddIndex (pilotAddIndex [] ⟨0, 10, true, false, some 1⟩).intervals
      ⟨3, 5, true, false, some 2⟩).log = [] := by
  norm_num [pilotAddIndex, addInterval, removeSpan, coalesce, coalesceCons, insertSorted, touchesSameData,
    mergeTI, leftPiece, rightPiece, tIsEmpty, tOverlaps, tBefore]

/-- C2: evaluating the removal path at a concrete flight (payload 1, interval
`[10,20)`).  After Pilot.add the pilot index and the global merged index both
hold the interval; after Flight.destroy the pilot index is empty but the
global merged index still contains a clone whose payload is the destroyed
flight. -/
theorem c2_destroy_leaves_stale_global :
    (flightDestroy (pilotAddApp ⟨[], []⟩ ⟨10, 20, true, false, some 1⟩)
      ⟨10, 20, true, false, some 1⟩).flights = [] ∧
    (flightDestroy (pilotAddApp ⟨[], []⟩ ⟨10, 20, true, false, some 1⟩)
      ⟨10, 20, true, false, some 1⟩).global = [⟨10, 20, true, false, some 1⟩] := by
  norm_num [flightDestroy, pilotRemoveApp, pilotAddApp, pilotAddIndex, addInterval, removeSpan, coalesce, coalesceCons, insertSorted, touchesSameData,
    mergeTI, leftPiece, rightPiece, tIsEmpty, tOverlaps, tBefore]

/-- C3: with the global merged index `{[10,20), [30,40)}` and clock bounds
`[0,50]`, a snap forward seek from time 25 commits 30, and a plain forward
seek from time 15 with step 10 and rate magnitude 1 commits exactly 25 (the
in-interval step to 25 leaves `[10,20)`, is discarded, and the not-inside
plain add from 15 again yields 25). -/
theorem c3_seek_scenarios :
    (seek [⟨10, 20, true, false, some 1⟩, ⟨30, 40, true, false, some 2⟩]
      ⟨25, 0, 50, 1, false⟩ false true).clock.currentTime = 30 ∧
    (seek [⟨10, 20, true, false, some 1⟩, ⟨30, 40, true, false, some 2⟩]
      ⟨15, 0, 50, 1, false⟩ false false).clock.currentTime = 25 := by
  constructor <;>
  norm_num [seek, seekJump, seekEpsA, seekEpsB, seekJumpA, seekJumpB, seekJumpC,
    indexOf, indexOfAux, tContains, tAfter, getI, jsNot, eqEps, JUMP_SECONDS]

/-- C4 counterexample: a snap seek can widen a clock bound when the clock
state does not already enclose the index's intervals.  With index
`{[10,20)}`, start bound 15 and current time 12, a snap backward seek
commits 10, strictly before the start bound, and widens that bound. -/
theorem c4_snap_expansion_counterexample :
    (seek [⟨10, 20, true, false, some 1⟩] ⟨12, 15, 50, 1, false⟩ true true).expanded = true ∧
    (seek [⟨10, 20, true, false, some 1⟩] ⟨12, 15, 50, 1, false⟩ true true).clock.currentTime = 10 ∧
    (seek [⟨10, 20, true, false, some 1⟩] ⟨12, 15, 50, 1, false⟩ true true).clock.startTime = 10 := by
  refine ⟨?_, ?_, ?_⟩ <;>
  norm_num [seek, seekJump, seekEpsA, seekEpsB, seekJumpA, seekJumpB, seekJumpC,
    indexOf, indexOfAux, tContains, tAfter, getI, jsNot, eqEps, JUMP_SECONDS]

/-- C5: evaluating the seek handler at the failing input.  With the index
`{[10,20), [30,40)}`, bounds `[0,50]` and current time 19.5 — inside
`[10,20)` and within epsilon 1 of its stop — a snap forward seek commits 20,
this interval's stop: the forward stop correction compares with epsilon 0
(the argument is omitted at src/app.js 885), never fires for a half-open
interval, and so the position is not flipped to "just after" and the seek
does not land on the next interval's start 30. -/
theorem c5_forward_stop_epsilon_dead :
    (seek [⟨10, 20, true, false, some 1⟩, ⟨30, 40, true, false, some 2⟩]
      ⟨39 / 2, 0, 50, 1, false⟩ false true).clock.currentTime = 20 := by
  norm_num [seek, seekJump, seekEpsA, seekEpsB, seekJumpA, seekJumpB, seekJumpC,
    indexOf, indexOfAux, tContains, tAfter, getI, jsNot, eqEps, JUMP_SECONDS]

/-- C10 counterexample: a metadata rate field that is present with the value
0 — a number that is not strictly positive — produces no warning: the code
guards the validation with JavaScript truthiness, so 0 is silently treated
as absent.  The rate stays 1 and the video is still created and indexed. -/
theorem c10_zero_rate_counterexample :
    (videoCreate (JSVal.num 0) 100 5 7 []).log = [] ∧
    (videoCreate (JSVal.num 0) 100 5 7 []).rate = 1 ∧
    (videoCreate (JSVal.num 0) 100 5 7 []).videos = [⟨100, 105, true, false, some 7⟩] := by
  refine ⟨?_, ?_, ?_⟩ <;>
  norm_num [videoCreate, truthy, isNumberVal, numVal, pilotAddIndex, addInterval, removeSpan, coalesce, coalesceCons, insertSorted, touchesSameData,
    mergeTI, leftPiece, rightPiece, tIsEmpty, tOverlaps, tBefore]

/-- The playback rate written by syncVideo is determined by the sign of the
clock rate alone. -/
theorem syncVideo_playbackRate (clock : Clock) (intervalStart rate : ℚ) (el : MediaElement) :
    (syncVideo clock intervalStart rate el).playbackRate =
      if clock.multiplier < 0 then (1 / 10 : ℚ) else 1 := by
  unfold syncVideo
  simp only [apply_ite (MediaElement.playbackRate)]
  split_ifs <;> simp_all

/-- C8: on every tick while a video is active, syncVideo sets the media
element's playback rate to the fixed slow forward value 1/10 when the
driving clock's rate is negative and to 1 otherwise; the resulting playback
rate is positive, never negative. -/
theorem c8_playback_rate_never_negative (clock : Clock) (intervalStart rate : ℚ)
    (el : MediaElement) :
    (syncVideo clock intervalStart rate el).playbackRate =
      (if clock.multiplier < 0 then (1 / 10 : ℚ) else 1) ∧
    0 < (syncVideo clock intervalStart rate el).playbackRate := by
  refine ⟨syncVideo_playbackRate clock intervalStart rate el, ?_⟩
  rw [syncVideo_playbackRate clock intervalStart rate el]
  split_ifs <;> norm_num


/-- After a tick the tracked flight is the resolved candidate (the no-op
re-confirmation when nothing changed). -/
theorem onTick_currentFlight (cfg : ResolverCfg) (s : ResolverState) (t : ℚ) :
    (onTick cfg s t).1.currentFlight = resolveFlight cfg t := by
  simp only [onTick]
  split_ifs <;> simp_all

/-- After a tick the tracked video is the resolved candidate. -/
theorem onTick_currentVideo (cfg : ResolverCfg) (s : ResolverState) (t : ℚ) :
    (onTick cfg s t).1.currentVideo = resolveVideo cfg t := by
  simp only [onTick]
  split_ifs <;> simp_all

/-- A single tick emits one flight notification when the resolved flight
differs from the tracked one and none otherwise. -/
theorem onTick_flightCount (cfg : ResolverCfg) (s : ResolverState) (t : ℚ) :
    (onTick cfg s t).2.countP isFlightNotice =
      if resolveFlight cfg t ≠ s.currentFlight then 1 else 0 := by
  simp only [onTick]
  split_ifs <;> simp_all [isFlightNotice]

/-- A single tick emits one video notification when the resolved video
differs from the tracked one and none otherwise. -/
theorem onTick_videoCount (cfg : ResolverCfg) (s : ResolverState) (t : ℚ) :
    (onTick cfg s t).2.countP isVideoNotice =
      if resolveVideo cfg t ≠ s.currentVideo then 1 else 0 := by
  simp only [onTick]
  split_ifs <;> simp_all [isVideoNotice]

/-- C6: over every tick sequence the resolver raises exactly one
flight-changed notification per transition of the containing flight
interval's payload and exactly one video-changed notification per transition
of the resolved video payload, and none on ticks where the respective
payload is unchanged — consecutive ticks inside one interval or inside a gap
contribute no notification. -/
theorem c6_notifications_once_per_transition (cfg : ResolverCfg) (s : ResolverState)
    (ts : List ℚ) :
    (runTicks cfg s ts).2.countP isFlightNotice =
      transitionCount (resolveFlight cfg) s.currentFlight ts ∧
    (runTicks cfg s ts).2.countP isVideoNotice =
      transitionCount (resolveVideo cfg) s.currentVideo ts := by
  induction ts generalizing s with
  | nil => simp [runTicks, transitionCount]
  | cons t ts ih =>
    have hf := onTick_flightCount cfg s t
    have hv := onTick_videoCount cfg s t
    have hcf := onTick_currentFlight cfg s t
    have hcv := onTick_currentVideo cfg s t
    have ihs := ih (onTick cfg s t).1
    simp only [runTicks, transitionCount, List.countP_append]
    rw [hf, hv, ihs.1, ihs.2, hcf, hcv]
    omega

theorem c3sub_scale (n : Nat) (p : Cart3) : c3sub (c3scale (n + 1) p) p = c3scale n p := by
  unfold c3sub c3scale
  simp only [Cart3.mk.injEq]
  push_cast
  refine ⟨by ring, by ring, by ring⟩

theorem c3add_scale (n : Nat) (p : Cart3) : c3add (c3scale n p) p = c3scale (n + 1) p := by
  unfold c3add c3scale
  simp only [Cart3.mk.injEq]
  push_cast
  refine ⟨by ring, by ring, by ring⟩

theorem c3div_scale (n : Nat) (p : Cart3) (hn : n ≠ 0) : c3div (c3scale n p) (n : ℚ) = p := by
  have h : (n : ℚ) ≠ 0 := Nat.cast_ne_zero.mpr hn
  unfold c3div c3scale
  simp only
  cases p
  simp only [Cart3.mk.injEq]
  refine ⟨?_, ?_, ?_⟩ <;> field_simp

theorem shiftStep_inv (p : Cart3) (drain : Bool) (s : TrackerState) (h : ConstInv p s) :
    ConstInv p (shiftStep drain s) := by
  obtain ⟨h1, h2, h3⟩ := h
  unfold shiftStep
  split_ifs with hc
  · match hs : s.stack with
    | [] => exact ⟨by rw [hs] at h1 ⊢; exact h1, by rw [hs] at h2 ⊢; exact h2, h3⟩
    | bottom :: rest =>
      refine ⟨?_, ?_, h3⟩
      · intro e he
        exact h1 e (by rw [hs]; exact List.mem_cons_of_mem _ he)
      · have hb : bottom.position = p := h1 bottom (by rw [hs]; exact List.mem_cons_self _ _)
        simp only [hs, List.length_cons] at h2
        simp only [h2, hb, c3sub_scale]
  · exact ⟨h1, h2, h3⟩

theorem emitStep_inv (p : Cart3) (drain : Bool) (s : TrackerState) (h : ConstInv p s) :
    ConstInv p (emitStep drain s) := by
  obtain ⟨h1, h2, h3⟩ := h
  unfold emitStep
  split_ifs with hc
  · have hlen : s.stack.length ≠ 0 := by
      intro h0
      simp [h0] at hc
    cases hg : s.stack.get? (s.stack.length - TRACKER_WINDOW / 2) with
    | none => simp only [hg]; exact ⟨h1, h2, h3⟩
    | some e =>
      simp only [hg]
      refine ⟨h1, h2, ?_⟩
      intro o ho
      simp only [List.mem_append, List.mem_singleton] at ho
      rcases ho with ho | ho
      · exact h3 o ho
      · subst ho
        simp only [h2, c3div_scale _ p hlen]
  · exact ⟨h1, h2, h3⟩

theorem updateTracker_inv (p : Cart3) (drain : Bool) (s : TrackerState) (h : ConstInv p s) :
    ConstInv p (updateTracker drain s) :=
  emitStep_inv p drain _ (shiftStep_inv p drain s h)

theorem pushSample_inv (p : Cart3) (s : TrackerState) (smp : TSample)
    (hsmp : smp.position = p) (h : ConstInv p s) : ConstInv p (pushSample s smp) := by
  obtain ⟨h1, h2, h3⟩ := h
  unfold pushSample
  apply updateTracker_inv
  refine ⟨?_, ?_, h3⟩
  · intro e he
    simp only [List.mem_append, List.mem_singleton] at he
    rcases he with he | he
    · exact h1 e he
    · rw [he, hsmp]
  · simp only [List.length_append, List.length_singleton, h2, hsmp, c3add_scale]

theorem drainSteps_inv (p : Cart3) (fuel : Nat) (s : TrackerState) (h : ConstInv p s) :
    ConstInv p (drainSteps fuel s) := by
  induction fuel generalizing s with
  | zero => exact h
  | succ fuel ih =>
    unfold drainSteps
    split_ifs
    · exact h
    · exact ih _ (updateTracker_inv p true s h)

theorem foldl_pushSample_inv (p : Cart3) (samples : List TSample) (s : TrackerState)
    (hconst : ∀ e ∈ samples, e.position = p) (h : ConstInv p s) :
    ConstInv p (samples.foldl pushSample s) := by
  induction samples generalizing s with
  | nil => exact h
  | cons a as ih =>
    simp only [List.foldl_cons]
    exact ih _ (fun e he => hconst e (List.mem_cons_of_mem _ he))
      (pushSample_inv p s a (hconst a (List.mem_cons_self _ _)) h)

/-- C7: for every input of at least W = 128 samples all at one constant
position `p`, every smoothed sample the smoother emits — during streaming
and during the end-of-input flush alike — has position exactly `p` (the
rational model makes the float-epsilon qualification exact). -/
theorem c7_constant_input_constant_output (samples : List TSample) (p : Cart3)
    (hlen : TRACKER_WINDOW ≤ samples.length)
    (hconst : ∀ e ∈ samples, e.position = p) :
    ∀ e ∈ (runTracker samples).output, e.position = p := by
  have hinit : ConstInv p ⟨[], ⟨0, 0, 0⟩, []⟩ := by
    refine ⟨by simp, ?_, by simp⟩
    simp [c3scale]
  have hfold := foldl_pushSample_inv p samples _ hconst hinit
  have hdrain := drainSteps_inv p
    (samples.foldl pushSample ⟨[], ⟨0, 0, 0⟩, []⟩).stack.length _ hfold
  exact hdrain.2.2

/-- Witness for C7 at a concrete input: 128 samples at position (1,2,3). -/
theorem c7_witness :
    TRACKER_WINDOW ≤ (List.replicate 128 (⟨0, ⟨1, 2, 3⟩⟩ : TSample)).length ∧
    (∀ e ∈ List.replicate 128 (⟨0, ⟨1, 2, 3⟩⟩ : TSample), e.position = ⟨1, 2, 3⟩) ∧
    ∀ e ∈ (runTracker (List.replicate 128 (⟨0, ⟨1, 2, 3⟩⟩ : TSample))).output,
      e.position = ⟨1, 2, 3⟩ := by
  refine ⟨by simp [TRACKER_WINDOW], ?_, ?_⟩
  · intro e he
    rw [List.eq_of_mem_replicate he]
  · exact c7_constant_input_constant_output _ _ (by simp [TRACKER_WINDOW])
      (fun e he => by rw [List.eq_of_mem_replicate he])

/-- Creating one more pilot with a fresh name preserves the ring invariant:
the constructor splices the new pilot between the first pilot and that
pilot's predecessor. -/
theorem addPilot_inv (s : PilotRing) (c : Nat) (h : RingInv s) (hc : c ∉ s.pilots) :
    RingInv (addPilot s c) := by
  rcases hp : s.pilots with _ | ⟨a, rest⟩
  · -- empty collection: the new pilot links to itself
    have hprevc : s.prev c = none := by
      have := (h.prevMem c).not
      simp [hp] at this
      exact Option.not_isSome_iff_eq_none.mp (by simp [this])
    have hnx : ∀ q, (addPilot s c).next q = if q = c then some c else s.next q := by
      intro q
      by_cases hq : q = c <;> simp [addPilot, hp, hprevc, hq]
    have hpv : ∀ q, (addPilot s c).prev q = if q = c then some c else s.prev q := by
      intro q
      by_cases hq : q = c <;> simp [addPilot, hp, hprevc, hq]
    have hpil : (addPilot s c).pilots = [c] := by simp [addPilot, hp]
    refine ⟨by simp [hpil], ?_, ?_, ?_, ?_⟩
    · intro q
      rw [hnx q, hpil]
      by_cases hq : q = c
      · simp [hq]
      · simp [hq, h.nextMem q, hp]
    · intro q
      rw [hpv q, hpil]
      by_cases hq : q = c
      · simp [hq]
      · simp [hq, h.prevMem q, hp]
    · intro q hq r hr
      rw [hpil] at hq
      simp at hq
      subst hq
      rw [hnx, if_pos rfl] at hr
      cases hr
      rw [hpil, hpv]
      simp
    · intro q hq r hr
      rw [hpil] at hq
      simp at hq
      subst hq
      rw [hpv, if_pos rfl] at hr
      cases hr
      rw [hpil, hnx]
      simp
  · -- non-empty: link in before the first pilot a, after b = prev a
    have ha : a ∈ s.pilots := by rw [hp]; exact List.mem_cons_self _ _
    have hsome : (s.prev a).isSome := (h.prevMem a).mpr ha
    obtain ⟨b, hb⟩ := Option.isSome_iff_exists.mp hsome
    obtain ⟨hbmem, hnb⟩ := h.prevNext a ha b hb
    have hca : c ≠ a := fun e => hc (e ▸ ha)
    have hcb : c ≠ b := fun e => hc (e ▸ hbmem)
    have hpil : (addPilot s c).pilots = s.pilots ++ [c] := rfl
    have hnx : ∀ q, (addPilot s c).next q =
        if q = b then some c else if q = c then some a else s.next q := by
      intro q
      simp [addPilot, hp, hb]
    have hpv : ∀ q, (addPilot s c).prev q =
        if q = a then some c else if q = c then some b else s.prev q := by
      intro q
      simp [addPilot, hp, hb]
    refine ⟨?_, ?_, ?_, ?_, ?_⟩
    · rw [hpil]
      simp [List.nodup_append, h.nodup, hc]
    · intro q
      rw [hnx q, hpil]
      by_cases hqb : q = b
      · subst hqb
        simp [hbmem]
      · by_cases hqc : q = c
        · subst hqc
          simp [hqb]
        · simp [hqb, hqc, h.nextMem q]
    · intro q
      rw [hpv q, hpil]
      by_cases hqa : q = a
      · subst hqa
        simp [ha]
      · by_cases hqc : q = c
        · subst hqc
          simp [hqa]
        · simp [hqa, hqc, h.prevMem q]
    · intro q hq r hr
      rw [hnx q] at hr
      rw [hpil] at hq ⊢
      by_cases hqb : q = b
      · subst hqb
        rw [if_pos rfl] at hr
        cases hr
        refine ⟨by simp, ?_⟩
        rw [hpv, if_neg hca, if_pos rfl]
      · by_cases hqc : q = c
        · subst hqc
          rw [if_neg hqb, if_pos rfl] at hr
          cases hr
          refine ⟨by simp [ha], ?_⟩
          rw [hpv, if_pos rfl]
        · rw [if_neg hqb, if_neg hqc] at hr
          have hqmem : q ∈ s.pilots := by
            rcases List.mem_append.mp hq with h' | h'
            · exact h'
            · simp at h'
              exact absurd h' hqc
          obtain ⟨hrmem, hpr⟩ := h.nextPrev q hqmem r hr
          have hra : r ≠ a := by
            intro e
            subst e
            rw [hb] at hpr
            cases hpr
            exact hqb rfl
          have hrc : r ≠ c := fun e => hc (e ▸ hrmem)
          refine ⟨List.mem_append.mpr (Or.inl hrmem), ?_⟩
          rw [hpv, if_neg hra, if_neg hrc]
          exact hpr
    · intro q hq r hr
      rw [hpv q] at hr
      rw [hpil] at hq ⊢
      by_cases hqa : q = a
      · subst hqa
        rw [if_pos rfl] at hr
        cases hr
        refine ⟨by simp, ?_⟩
        rw [hnx, if_neg hcb, if_pos rfl]
      · by_cases hqc : q = c
        · subst hqc
          rw [if_neg hqa, if_pos rfl] at hr
          cases hr
          refine ⟨by simp [hbmem], ?_⟩
          rw [hnx, if_pos rfl]
        · rw [if_neg hqa, if_neg hqc] at hr
          have hqmem : q ∈ s.pilots := by
            rcases List.mem_append.mp hq with h' | h'
            · exact h'
            · simp at h'
              exact absurd h' hqc
          obtain ⟨hrmem, hnr⟩ := h.prevNext q hqmem r hr
          have hrb : r ≠ b := by
            intro e
            subst e
            rw [hnb] at hnr
            cases hnr
            exact hqa rfl
          have hrc : r ≠ c := fun e => hc (e ▸ hrmem)
          refine ⟨List.mem_append.mpr (Or.inl hrmem), ?_⟩
          rw [hnx, if_neg hrb, if_neg hrc]
          exact hnr

/-- Folding pilot creation over fresh names preserves the ring invariant and
appends the names in creation order. -/
theorem foldl_addPilot_inv (names : List Nat) :
    ∀ s : PilotRing, names.Nodup → (∀ x ∈ names, x ∉ s.pilots) → RingInv s →
      RingInv (names.foldl addPilot s) ∧
      (names.foldl addPilot s).pilots = s.pilots ++ names := by
  induction names with
  | nil => intro s _ _ h; exact ⟨h, by simp⟩
  | cons a as ih =>
    intro s hnd hfresh h
    have ha : a ∉ s.pilots := hfresh a (List.mem_cons_self _ _)
    have hinv := addPilot_inv s a h ha
    have hfresh' : ∀ x ∈ as, x ∉ (addPilot s a).pilots := by
      intro x hx
      have hxa : x ≠ a := by
        intro e
        subst e
        exact (List.nodup_cons.mp hnd).1 hx
      have hxs : x ∉ s.pilots := hfresh x (List.mem_cons_of_mem _ hx)
      intro hmem
      rcases List.mem_append.mp hmem with h' | h'
      · exact hxs h'
      · simp at h'
        exact hxa h'
    have := ih (addPilot s a) (List.nodup_cons.mp hnd).2 hfresh' hinv
    refine ⟨this.1, ?_⟩
    rw [List.foldl_cons, this.2]
    simp [addPilot]

/-- C9: after every sequence of pilot creations with distinct names, the
pilots form a circular doubly-linked ordering: for every pilot q,
q.next.prev == q and q.prev.next == q. -/
theorem c9_pilot_ring_doubly_linked (names : List Nat) (h : names.Nodup) :
    ∀ q ∈ (buildRing names).pilots,
      ((buildRing names).next q).bind (buildRing names).prev = some q ∧
      ((buildRing names).prev q).bind (buildRing names).next = some q := by
  have hinit : RingInv ⟨[], fun _ => none, fun _ => none⟩ := by
    refine ⟨List.nodup_nil, by simp, by simp, by simp, by simp⟩
  have hinv : RingInv (buildRing names) :=
    (foldl_addPilot_inv names _ h (by simp) hinit).1
  intro q hq
  constructor
  · obtain ⟨r, hr⟩ := Option.isSome_iff_exists.mp ((hinv.nextMem q).mpr hq)
    rw [hr]
    exact (hinv.nextPrev q hq r hr).2
  · obtain ⟨r, hr⟩ := Option.isSome_iff_exists.mp ((hinv.prevMem q).mpr hq)
    rw [hr]
    exact (hinv.prevNext q hq r hr).2

/-- Witness for C9 at the concrete creation sequence 0, 1, 2. -/
theorem c9_pilot_ring_witness :
    ([0, 1, 2] : List Nat).Nodup ∧
    ∀ q ∈ (buildRing [0, 1, 2]).pilots,
      ((buildRing [0, 1, 2]).next q).bind (buildRing [0, 1, 2]).prev = some q ∧
      ((buildRing [0, 1, 2]).prev q).bind (buildRing [0, 1, 2]).next = some q :=
  ⟨by decide, c9_pilot_ring_doubly_linked [0, 1, 2] (by decide)⟩

theorem getI_mem {c : List TInterval} {i : Int} {I : TInterval} (h : getI c i = some I) :
    I ∈ c := by
  unfold getI at h
  split_ifs at h
  exact List.get?_mem h

theorem mem_insertSorted {J K : TInterval} : ∀ {l : List TInterval},
    K ∈ insertSorted J l → K = J ∨ K ∈ l := by
  intro l
  induction l with
  | nil =>
    intro h
    simp [insertSorted] at h
    exact Or.inl h
  | cons x rest ih =>
    intro h
    unfold insertSorted at h
    split_ifs at h
    · rcases List.mem_cons.mp h with h | h
      · exact Or.inl h
      · exact Or.inr h
    · rcases List.mem_cons.mp h with h | h
      · exact Or.inr (by rw [h]; exact List.mem_cons_self _ _)
      · rcases ih h with h' | h'
        · exact Or.inl h'
        · exact Or.inr (List.mem_cons_of_mem _ h')

theorem coalesce_data_origin : ∀ (l : List TInterval), ∀ K ∈ coalesce l,
    ∃ L ∈ l, K.data = L.data := by
  intro l
  induction l with
  | nil =>
    intro K h
    simp [coalesce] at h
  | cons x rest ih =>
    intro K h
    rw [show coalesce (x :: rest) = coalesceCons x (coalesce rest) from rfl] at h
    cases hr : coalesce rest with
    | nil =>
      rw [hr] at h
      simp only [coalesceCons] at h
      simp at h
      exact ⟨x, List.mem_cons_self _ _, by rw [h]⟩
    | cons K0 r' =>
      rw [hr] at h
      simp only [coalesceCons] at h
      split_ifs at h
      · rcases List.mem_cons.mp h with h | h
        · rw [h]
          exact ⟨x, List.mem_cons_self _ _, rfl⟩
        · obtain ⟨L, hL, hd⟩ := ih K (by rw [hr]; exact List.mem_cons_of_mem _ h)
          exact ⟨L, List.mem_cons_of_mem _ hL, hd⟩
      · rcases List.mem_cons.mp h with h | h
        · rw [h]
          exact ⟨x, List.mem_cons_self _ _, rfl⟩
        · obtain ⟨L, hL, hd⟩ := ih K (by rw [hr]; exact h)
          exact ⟨L, List.mem_cons_of_mem _ hL, hd⟩

theorem mem_coalesce_insertSorted (I : TInterval) : ∀ (l : List TInterval),
    (∀ J ∈ l, J.data ≠ I.data) → I ∈ coalesce (insertSorted I l) := by
  intro l
  induction l with
  | nil =>
    intro _
    simp [insertSorted, coalesce, coalesceCons]
  | cons x rest ih =>
    intro hl
    unfold insertSorted
    split_ifs
    · -- the new interval goes in front: I :: x :: rest
      rw [show coalesce (I :: x :: rest) = coalesceCons I (coalesce (x :: rest)) from rfl]
      cases hr : coalesce (x :: rest) with
      | nil => simp [coalesceCons]
      | cons K r' =>
        have hK : K.data ≠ I.data := by
          obtain ⟨L, hL, hd⟩ := coalesce_data_origin (x :: rest) K
            (by rw [hr]; exact List.mem_cons_self _ _)
          rw [hd]
          exact hl L hL
        have ht : touchesSameData I K = false := by
          unfold touchesSameData
          have hd : decide (I.data = K.data) = false := decide_eq_false fun e => hK e.symm
          simp [hd]
        simp only [coalesceCons]
        rw [ht]
        simp
    · -- the new interval goes deeper: x :: insertSorted I rest
      have hIrest : I ∈ coalesce (insertSorted I rest) :=
        ih fun J hJ => hl J (List.mem_cons_of_mem _ hJ)
      rw [show coalesce (x :: insertSorted I rest) = coalesceCons x (coalesce (insertSorted I rest)) from rfl]
      cases hr : coalesce (insertSorted I rest) with
      | nil =>
        rw [hr] at hIrest
        simp at hIrest
      | cons K r' =>
        rw [hr] at hIrest
        simp only [coalesceCons]
        split_ifs with ht
        · -- x merges with K, whose data equals x.data and so differs from I.data
          have hxK : x.data = K.data := by
            unfold touchesSameData at ht
            simp at ht
            exact ht.1.1
          have hKI : I ≠ K := by
            intro e
            apply hl x (List.mem_cons_self _ _)
            rw [hxK, ← e]
          rcases List.mem_cons.mp hIrest with h | h
          · exact absurd h hKI
          · exact List.mem_cons_of_mem _ h
        · rcases List.mem_cons.mp hIrest with h | h
          · exact List.mem_cons_of_mem _ (by rw [h]; exact List.mem_cons_self _ _)
          · exact List.mem_cons_of_mem _ (List.mem_cons_of_mem _ h)

theorem removeSpan_data_origin (I : TInterval) (c : List TInterval) :
    ∀ J ∈ removeSpan I c, ∃ K ∈ c, J.data = K.data := by
  intro J hJ
  unfold removeSpan at hJ
  split_ifs at hJ
  · exact ⟨J, hJ, rfl⟩
  · obtain ⟨K, hK, hmem⟩ := List.mem_flatMap.mp hJ
    refine ⟨K, hK, ?_⟩
    split_ifs at hmem
    · rcases List.mem_append.mp hmem with h | h
      · simp only [leftPiece] at h
        split_ifs at h
        · simp at h
        · simp at h
          rw [h]
      · simp only [rightPiece] at h
        split_ifs at h
        · simp at h
        · simp at h
          rw [h]
    · simp at hmem
      rw [hmem]

/-- Pilot.add always puts the inserted interval itself into the collection
when its payload is fresh (no warning, no rejection). -/
theorem pilotAddIndex_mem (c : List TInterval) (I : TInterval)
    (hne : tIsEmpty I = false) (hfresh : ∀ J ∈ c, J.data ≠ I.data) :
    I ∈ (pilotAddIndex c I).intervals := by
  unfold pilotAddIndex addInterval
  rw [if_neg (by simp [hne])]
  apply mem_coalesce_insertSorted
  intro J hJ
  obtain ⟨K1, hK1, hd1⟩ := removeSpan_data_origin I (removeSpan I c) J hJ
  obtain ⟨K, hK, hd⟩ := removeSpan_data_origin I c K1 hK1
  rw [hd1, hd]
  exact hfresh K hK

/-- C1 amended: Pilot.add never rejects and never warns — for every index and
every non-empty interval with a payload not already in the index (as holds
for every freshly created flight or video), insert emits no warning, raises
no exception (it is a total function), and the interval itself is in the
collection afterwards, having taken precedence over whatever it overlapped. -/
theorem c1_insert_never_rejects (c : List TInterval) (I : TInterval)
    (hne : tIsEmpty I = false) (hfresh : ∀ J ∈ c, J.data ≠ I.data) :
    (pilotAddIndex c I).log = [] ∧ I ∈ (pilotAddIndex c I).intervals :=
  ⟨rfl, pilotAddIndex_mem c I hne hfresh⟩

/-- Witness for the amended C1 at the overlapping pair of the
counterexample. -/
theorem c1_insert_never_rejects_witness :
    tOverlaps ⟨0, 10, true, false, some 1⟩ ⟨3, 5, true, false, some 2⟩ = true ∧
    tIsEmpty (⟨3, 5, true, false, some 2⟩ : TInterval) = false ∧
    (∀ J ∈ [(⟨0, 10, true, false, some 1⟩ : TInterval)],
      J.data ≠ (⟨3, 5, true, false, some 2⟩ : TInterval).data) ∧
    (pilotAddIndex [⟨0, 10, true, false, some 1⟩] ⟨3, 5, true, false, some 2⟩).log = [] ∧
    ⟨3, 5, true, false, some 2⟩ ∈
      (pilotAddIndex [⟨0, 10, true, false, some 1⟩] ⟨3, 5, true, false, some 2⟩).intervals := by
  have hne : tIsEmpty (⟨3, 5, true, false, some 2⟩ : TInterval) = false := by
    norm_num [tIsEmpty]
  have hfresh : ∀ J ∈ [(⟨0, 10, true, false, some 1⟩ : TInterval)],
      J.data ≠ (⟨3, 5, true, false, some 2⟩ : TInterval).data := by
    intro J hJ
    simp at hJ
    rw [hJ]
    simp
  have hmain := c1_insert_never_rejects _ _ hne hfresh
  exact ⟨by norm_num [tOverlaps, tBefore], hne, hfresh, hmain.1, hmain.2⟩

/-- C10 amended: for every video whose metadata rate field is truthy but not
a number or not strictly positive, create logs the warning, leaves the rate
at the default 1, and still creates and indexes the video. -/
theorem c10_bad_rate_warns_and_defaults (rateField : JSVal) (start duration : ℚ)
    (vid : Nat) (pilotVideos : List TInterval)
    (htruthy : truthy rateField = true)
    (hbad : isNumberVal rateField = false ∨ numVal rateField ≤ 0)
    (hdur : 0 < duration)
    (hfresh : ∀ J ∈ pilotVideos, J.data ≠ some vid) :
    (videoCreate rateField start duration vid pilotVideos).log = ["Invalid rate for video:"] ∧
    (videoCreate rateField start duration vid pilotVideos).rate = 1 ∧
    (videoCreate rateField start duration vid pilotVideos).interval ∈
      (videoCreate rateField start duration vid pilotVideos).videos := by
  unfold videoCreate
  rw [if_pos htruthy, if_pos hbad]
  refine ⟨rfl, rfl, ?_⟩
  apply pilotAddIndex_mem
  · simp only [tIsEmpty]
    have h1 : ¬(start + duration * 1 < start) := by linarith
    have h2 : ¬(start = start + duration * 1) := by
      intro e
      nlinarith [e]
    simp [h1, h2]
    exact ⟨le_of_lt hdur, ne_of_gt hdur⟩
  · intro J hJ
    exact hfresh J hJ

/-- Witness for the amended C10 at the concrete rate field -5. -/
theorem c10_bad_rate_witness :
    truthy (JSVal.num (-5)) = true ∧
    (isNumberVal (JSVal.num (-5)) = false ∨ numVal (JSVal.num (-5)) ≤ 0) ∧
    (0 : ℚ) < 5 ∧
    (videoCreate (JSVal.num (-5)) 0 5 3 []).log = ["Invalid rate for video:"] ∧
    (videoCreate (JSVal.num (-5)) 0 5 3 []).rate = 1 ∧
    (videoCreate (JSVal.num (-5)) 0 5 3 []).interval ∈
      (videoCreate (JSVal.num (-5)) 0 5 3 []).videos := by
  have htruthy : truthy (JSVal.num (-5)) = true := by norm_num [truthy]
  have hbad : isNumberVal (JSVal.num (-5)) = false ∨ numVal (JSVal.num (-5)) ≤ 0 := by
    right
    norm_num [numVal]
  have hmain := c10_bad_rate_warns_and_defaults (JSVal.num (-5)) 0 5 3 []
    htruthy hbad (by norm_num) (by simp)
  exact ⟨htruthy, hbad, by norm_num, hmain.1, hmain.2.1, hmain.2.2⟩

/-- Every jump the inside-an-interval block decides under snap is the start
bound, the stop bound, or an edge of an interval of the collection. -/
theorem seekJumpA_target {c : List TInterval} {clock : Clock} {left : Bool}
    {seconds : ℚ} {i : Int} {j : ℚ}
    (h : seekJumpA c clock left true seconds i = some j) :
    j = clock.startTime ∨ j = clock.stopTime ∨ ∃ I ∈ c, j = I.start ∨ j = I.stop := by
  unfold seekJumpA at h
  by_cases h0 : 0 ≤ i
  · rw [if_pos h0] at h
    cases hI : getI c i with
    | none => rw [hI] at h; cases h
    | some interval =>
      have hmem : interval ∈ c := getI_mem hI
      rw [hI] at h
      repeat' split at h
      all_goals try cases h
      all_goals
        first
          | exact Or.inl rfl
          | exact Or.inr (Or.inl rfl)
          | exact Or.inr (Or.inr ⟨_, hmem, Or.inl rfl⟩)
          | exact Or.inr (Or.inr ⟨_, hmem, Or.inr rfl⟩)
          | simp_all
      all_goals
        first
          | exact Or.inr (Or.inr ⟨_, hmem, Or.inl rfl⟩)
          | exact Or.inr (Or.inr ⟨_, hmem, Or.inr rfl⟩)
  · rw [if_neg h0] at h
    cases h

/-- Every jump the not-inside block decides under snap is the start bound,
the stop bound, or an edge of an interval of the collection. -/
theorem seekJumpB_target (c : List TInterval) (clock : Clock) (left : Bool)
    (seconds : ℚ) (i : Int) :
    seekJumpB c clock left true seconds i = clock.startTime ∨
    seekJumpB c clock left true seconds i = clock.stopTime ∨
    ∃ I ∈ c, seekJumpB c clock left true seconds i = I.start ∨
      seekJumpB c clock left true seconds i = I.stop := by
  unfold seekJumpB
  cases left with
  | true =>
    rw [if_pos ⟨rfl, rfl⟩]
    cases hI : getI c (jsNot i - 1) with
    | none => exact Or.inl rfl
    | some interval => exact Or.inr (Or.inr ⟨interval, getI_mem hI, Or.inr rfl⟩)
  | false =>
    rw [if_neg (by simp), if_pos ⟨rfl, rfl⟩]
    cases hI : getI c (jsNot i) with
    | none => exact Or.inr (Or.inl rfl)
    | some interval => exact Or.inr (Or.inr ⟨interval, getI_mem hI, Or.inl rfl⟩)

theorem seekJumpC_some (c : List TInterval) (left : Bool) (i : Int) (v : ℚ) :
    seekJumpC c left i (some v) = some v := rfl

/-- The committed target of a snap seek is one of the clock bounds or an
interval edge of the collection. -/
theorem seekJump_snap_target (c : List TInterval) (clock : Clock) (left : Bool) :
    seekJump c clock left true = clock.startTime ∨
    seekJump c clock left true = clock.stopTime ∨
    ∃ I ∈ c, seekJump c clock left true = I.start ∨
      seekJump c clock left true = I.stop := by
  simp only [seekJump]
  cases hA : seekJumpA c clock left true
      (JUMP_SECONDS * (if left = true then (-1 : ℚ) else 1) * |clock.multiplier|)
      (seekEpsB c clock.currentTime left
        (seekEpsA c clock.currentTime left (indexOf c clock.currentTime))) with
  | some v =>
    simp only [hA, seekJumpC_some, Option.getD_some]
    exact seekJumpA_target hA
  | none =>
    simp only [hA, seekJumpC_some, Option.getD_some]
    exact seekJumpB_target c clock left _ _

/-- C4 amended: whenever the clock bounds already enclose every interval of
the global merged index — as in every state the loader produces — a seek
with snap=true commits a target inside [start bound, stop bound], widens
neither bound, and reports no expansion: timeline bound expansion can only
come from plain seeks. -/
theorem c4_snap_never_expands (c : List TInterval) (clock : Clock) (left : Bool)
    (hne : c ≠ [])
    (hwf : ∀ I ∈ c, clock.startTime ≤ I.start ∧ I.start ≤ I.stop ∧ I.stop ≤ clock.stopTime)
    (hb : clock.startTime ≤ clock.stopTime) :
    (seek c clock left true).expanded = false ∧
    (seek c clock left true).clock.startTime = clock.startTime ∧
    (seek c clock left true).clock.stopTime = clock.stopTime ∧
    clock.startTime ≤ (seek c clock left true).clock.currentTime ∧
    (seek c clock left true).clock.currentTime ≤ clock.stopTime := by
  have hjb : clock.startTime ≤ seekJump c clock left true ∧
      seekJump c clock left true ≤ clock.stopTime := by
    rcases seekJump_snap_target c clock left with h | h | ⟨I, hI, h | h⟩ <;> rw [h]
    · exact ⟨le_refl _, hb⟩
    · exact ⟨hb, le_refl _⟩
    · exact ⟨(hwf I hI).1, le_trans (hwf I hI).2.1 (hwf I hI).2.2⟩
    · exact ⟨le_trans (hwf I hI).1 (hwf I hI).2.1, (hwf I hI).2.2⟩
  have hlen : ¬c.length = 0 := by simpa using hne
  simp only [seek, if_neg hlen]
  cases left with
  | true =>
    rw [if_pos rfl, if_neg (not_lt.mpr hjb.1)]
    exact ⟨rfl, rfl, rfl, hjb.1, hjb.2⟩
  | false =>
    rw [if_neg (by simp), if_neg (not_lt.mpr hjb.2)]
    exact ⟨rfl, rfl, rfl, hjb.1, hjb.2⟩

/-- Witness for the amended C4: snap forward from 25 past the single
interval [10,20) inside bounds [0,50] commits the stop bound 50 without
widening anything. -/
theorem c4_snap_never_expands_witness :
    ([(⟨10, 20, true, false, some 1⟩ : TInterval)] ≠ []) ∧
    (∀ I ∈ [(⟨10, 20, true, false, some 1⟩ : TInterval)],
      (⟨25, 0, 50, 1, false⟩ : Clock).startTime ≤ I.start ∧ I.start ≤ I.stop ∧
        I.stop ≤ (⟨25, 0, 50, 1, false⟩ : Clock).stopTime) ∧
    ((⟨25, 0, 50, 1, false⟩ : Clock).startTime ≤ (⟨25, 0, 50, 1, false⟩ : Clock).stopTime) ∧
    (seek [⟨10, 20, true, false, some 1⟩] ⟨25, 0, 50, 1, false⟩ false true).expanded = false ∧
    (seek [⟨10, 20, true, false, some 1⟩] ⟨25, 0, 50, 1, false⟩ false true).clock.startTime = 0 ∧
    (seek [⟨10, 20, true, false, some 1⟩] ⟨25, 0, 50, 1, false⟩ false true).clock.stopTime = 50 := by
  have hne : [(⟨10, 20, true, false, some 1⟩ : TInterval)] ≠ [] := by simp
  have hwf : ∀ I ∈ [(⟨10, 20, true, false, some 1⟩ : TInterval)],
      (⟨25, 0, 50, 1, false⟩ : Clock).startTime ≤ I.start ∧ I.start ≤ I.stop ∧
        I.stop ≤ (⟨25, 0, 50, 1, false⟩ : Clock).stopTime := by
    intro I hI
    simp at hI
    rw [hI]
    norm_num
  have hb : (⟨25, 0, 50, 1, false⟩ : Clock).startTime ≤ (⟨25, 0, 50, 1, false⟩ : Clock).stopTime := by
    norm_num
  have hmain := c4_snap_never_expands [⟨10, 20, true, false, some 1⟩]
    ⟨25, 0, 50, 1, false⟩ false hne hwf hb
  exact ⟨hne, hwf, hb, hmain.1, hmain.2.1, hmain.2.2.1⟩
